import Mathlib

/-!
# kiishi/turing: the execution engine of `turingmachine.go`

A shallow embedding of the single-tape machine of `src/turingmachine.go`
and the properties of its step function and run loop.

Conventions of the embedding.

* A Go `string` is a Lean `String`; `len(s)` of a Go string is its number of
  UTF-8 bytes, `String.utf8ByteSize`, while `[]rune(s)` is the list of its
  characters, `String.data`.  A Lean string is a list of Unicode characters,
  so the Go strings covered are the valid UTF-8 ones; a Go `rune` is a `Char`
  and `string(r)` is `String.singleton r`.
* A Go `map[string]V` is an association list `List (String × V)` read with
  `List.lookup`; `range` over the map visits its entries.
* `cursor` is a Go `int`.  It is an `Int` here: the code only increments it
  after a successful write (so below the tape length) and only decrements it
  when it is non-zero on the tape or at least `len(InputString)` off it, so no
  step leaves the 64-bit range.
* A Go panic is `Except.error`; the step and the reads return
  `Except String _`.
-/

namespace TuringGo

/-! ## Data model -/

/-- The Go struct `Ruleset`: one entry of the rule table. -/
structure Ruleset where
  NextState : String
  ReplacementSymbol : String
  Direction : String
  deriving DecidableEq, Repr

/-- The struct `statemachine.TransitionRule`, with the three fields
`InitializeController` fills in. -/
structure TransitionRule where
  EventName : String
  CurrentState : String
  DestinationState : String
  deriving DecidableEq, Repr

/-- Modelled from the spec: the controller `*statemachine.StateMachine` of the
package `github.com/kiishi/statemachine`, which is imported by the source and
not part of it.  The spec describes it as a table-driven representation whose
only operations are "lookup rule" and "set current state": it holds the
declared state names, the registered transitions and the name of the current
state (the identifier `CurrentState.GetIdentifier()` returns). -/
structure StateMachine where
  States : List String
  Transitions : List TransitionRule
  CurrentState : String
  deriving DecidableEq, Repr

/-- The Go struct `TuringMachine`. -/
structure TuringMachine where
  cursor : Int
  InputString : String
  Tape : List Char
  Controller : StateMachine
  AcceptState : String
  RejectState : String
  RuleSets : List (String × List (String × Ruleset))
  deriving DecidableEq, Repr

/-! ## The controller -/

/-- Modelled from the spec: `statemachine.NewMachine` with no states and no
transitions.  The source never sets a start state; the spec takes the initial
state to be "the externally supplied start state identifier", so it is a
parameter here. -/
def NewMachine (start : String) : StateMachine :=
  { States := [], Transitions := [], CurrentState := start }

/-- Modelled from the spec: `AddState` declares one more state name. -/
def StateMachine.AddState (m : StateMachine) (name : String) : StateMachine :=
  { m with States := m.States ++ [name] }

/-- Modelled from the spec: `AddTransition` registers one more transition
rule. -/
def StateMachine.AddTransition (m : StateMachine) (r : TransitionRule) : StateMachine :=
  { m with Transitions := m.Transitions ++ [r] }

/-- Modelled from the spec: `GetCurrentState().GetIdentifier()`. -/
def StateMachine.GetCurrentState (m : StateMachine) : String :=
  m.CurrentState

/-- Modelled from the spec: `SetState` moves to a declared state ("change
state freely to any state present in the declared state set") and returns an
error for a name that is not declared, the error the source turns into the
panic `Reject state invalid`. -/
def StateMachine.SetState (m : StateMachine) (name : String) : Except String StateMachine :=
  if name ∈ m.States then .ok { m with CurrentState := name }
  else .error "state does not exist"

/-- Modelled from the spec: `Emit` fires the registered transition that
carries the event name and leaves the current state ("a transition from s1 to
s2 can be done by emitting s1s2"), moving to its destination when that is a
declared state.  With no such transition the machine stays where it is; the
source ignores the value `Emit` returns. -/
def StateMachine.Emit (m : StateMachine) (event : String) : StateMachine :=
  match m.Transitions.find? (fun r => r.EventName == event && r.CurrentState == m.CurrentState) with
  | some r =>
    if r.DestinationState ∈ m.States then { m with CurrentState := r.DestinationState } else m
  | none => m

/-! ## The engine -/

/-- The read `tape[i]` of a Go slice: a panic when `i` is out of range. -/
def readTape (tape : List Char) (i : Int) : Except String Char :=
  if 0 ≤ i then
    match tape[i.toNat]? with
    | some c => .ok c
    | none => .error "index out of range"
  else .error "index out of range"

/-- The write `tape[i] = r` of a Go slice: a panic when `i` is out of range. -/
def writeTape (tape : List Char) (i : Int) (r : Char) : Except String (List Char) :=
  if 0 ≤ i ∧ i.toNat < tape.length then .ok (tape.set i.toNat r)
  else .error "index out of range"

/-- The method `CurrentTapeValue`: blank when the cursor is at or beyond the byte length
of the input string, the tape cell under the cursor otherwise. -/
def CurrentTapeValue (t : TuringMachine) : Except String Char :=
  if t.cursor ≥ (t.InputString.utf8ByteSize : Int) then .ok '_'
  else readTape t.Tape t.cursor

/-- The method `ToRune`: panics on a text of more than one byte, and on the empty text
through the index `[0]`. -/
def ToRune (text : String) : Except String Char :=
  if text.utf8ByteSize > 1 then .error "Character cant be converted to rune "
  else
    match text.data with
    | c :: _ => .ok c
    | [] => .error "index out of range"

/-- The method `ProcessAndMoveCursor`: one step of the machine on the symbol
`character`. -/
def ProcessAndMoveCursor (t : TuringMachine) (character : Char) : Except String TuringMachine :=
  let currentStateName := t.Controller.CurrentState
  match t.RuleSets.lookup currentStateName with
  | some val =>
    match val.lookup (String.singleton character) with
    | some characterConfiguration =>
      if t.cursor ≥ (t.InputString.utf8ByteSize : Int) then
        if characterConfiguration.Direction = "R" ∨ characterConfiguration.Direction = "r" then
          match t.Controller.SetState t.RejectState with
          | .ok c => .ok { t with Controller := c }
          | .error _ => .error "Reject state invalid"
        else
          .ok { t with
            cursor := t.cursor - 1
            Controller := t.Controller.Emit (currentStateName ++ characterConfiguration.NextState) }
      else
        match ToRune characterConfiguration.ReplacementSymbol with
        | .error e => .error e
        | .ok r =>
          match writeTape t.Tape t.cursor r with
          | .error e => .error e
          | .ok tape =>
            .ok { t with
              Tape := tape
              cursor :=
                if (characterConfiguration.Direction = "L" ∨ characterConfiguration.Direction = "l")
                    ∧ t.cursor ≠ 0 then t.cursor - 1 else t.cursor + 1
              Controller := t.Controller.Emit (currentStateName ++ characterConfiguration.NextState) }
    | none => .ok t
  | none => .ok t

/-- The transitions `InitializeController` derives from the rule table: one
per rule whose next state differs from its state, named by the two state names
joined. -/
def registerTransitions (m : StateMachine) (rules : List (String × List (String × Ruleset))) :
    StateMachine :=
  rules.foldl
    (fun m entry =>
      entry.2.foldl
        (fun m symbolRuleSet =>
          if entry.1 ≠ symbolRuleSet.2.NextState then
            m.AddTransition
              { EventName := entry.1 ++ symbolRuleSet.2.NextState
                CurrentState := entry.1
                DestinationState := symbolRuleSet.2.NextState }
          else m)
        m)
    m

/-- The method `InitializeController`: declares the states, registers the transitions of
the rule table and installs the controller. -/
def InitializeController (t : TuringMachine) (states : List String) (start : String) :
    TuringMachine :=
  let turingStateMachine := states.foldl (fun m name => m.AddState name) (NewMachine start)
  { t with Controller := registerTransitions turingStateMachine t.RuleSets }

/-- The loop of `IsCompleted` over the tape cells still to visit, entered with
`isComplete` true: `continue` on one of the tape symbols x, y, z or the blank,
`isComplete = false; break` on any other cell. -/
def isCompletedLoop : List Char → Bool
  | [] => true
  | val :: rest =>
    if val = 'x' ∨ val = 'y' ∨ val = 'z' ∨ val = '_' then isCompletedLoop rest else false

/-- The method `IsCompleted`: the flag it returns, paired with the machine as
the call leaves it (the method has a pointer receiver). -/
def IsCompleted (t : TuringMachine) : Bool × TuringMachine :=
  (isCompletedLoop t.Tape, t)

/-- The method `DecodeRuleSet`.  The outcome of `decoder.Decode` is given: an
error, or the decoded table; the fields of `Ruleset` are Go strings, so the
decoder accepts a replacement symbol of any length. -/
def DecodeRuleSet (t : TuringMachine)
    (decoded : Except String (List (String × List (String × Ruleset)))) :
    Except String TuringMachine :=
  match decoded with
  | .error err => .error ("Invalid Json Format" ++ err)
  | .ok RuleSets => .ok { t with RuleSets := RuleSets }

/-- The verdict printed by `StartComputing`. -/
inductive Verdict where
  | Accepted
  | Rejected
  deriving DecidableEq, Repr

/-- What a run of the loop of `StartComputing` comes to within a number of
iterations: a verdict with the final machine, a panic, or the machine reached
when the iterations are used up. -/
inductive RunResult where
  | halted (v : Verdict) (t : TuringMachine)
  | panicked (msg : String)
  | running (t : TuringMachine)
  deriving DecidableEq, Repr

/-- One iteration body of the loop: `t.ProcessAndMoveCursor(t.CurrentTapeValue())`. -/
def Step (t : TuringMachine) : Except String TuringMachine :=
  match CurrentTapeValue t with
  | .ok character => ProcessAndMoveCursor t character
  | .error e => .error e

/-- The test that ends the loop. -/
def isTerminal (t : TuringMachine) : Bool :=
  t.Controller.GetCurrentState == t.AcceptState || t.Controller.GetCurrentState == t.RejectState

/-- The verdict after the loop: accepted when the current state is the accept
state, rejected otherwise. -/
def verdictOf (t : TuringMachine) : Verdict :=
  if t.Controller.GetCurrentState = t.AcceptState then .Accepted else .Rejected

/-- The loop of `StartComputing`, at most `fuel` iterations: each iteration
steps first and tests for the accept or reject state afterwards. -/
def runLoop : Nat → TuringMachine → RunResult
  | 0, t => .running t
  | fuel + 1, t =>
    match Step t with
    | .error e => .panicked e
    | .ok t1 => if isTerminal t1 then .halted (verdictOf t1) t1 else runLoop fuel t1

/-- The machine `StartComputing` has built when it enters its loop: the tape
holds the characters of the input string, the cursor is 0 and the controller
is initialised.  The rule table, the input string, the state names and the
accept and reject names are the values `StartComputing` read. -/
def initialMachine (rules : List (String × List (String × Ruleset))) (inputString : String)
    (inputStatesArr : List String) (acceptState rejectState start : String) : TuringMachine :=
  InitializeController
    { cursor := 0
      InputString := inputString
      Tape := inputString.data
      Controller := NewMachine start
      AcceptState := acceptState
      RejectState := rejectState
      RuleSets := rules }
    inputStatesArr start

/-- The method `StartComputing` after its prompts: the loop run on the initial
machine. -/
def StartComputing (rules : List (String × List (String × Ruleset))) (inputString : String)
    (inputStatesArr : List String) (acceptState rejectState start : String) (fuel : Nat) :
    RunResult :=
  runLoop fuel (initialMachine rules inputString inputStatesArr acceptState rejectState start)

/-- The setup of `StartComputing`, up to the loop: `DecodeRuleSet`, the tape and
the names read from the prompts, then `InitializeController`. -/
def buildMachine (decoded : Except String (List (String × List (String × Ruleset))))
    (inputString : String) (inputStatesArr : List String)
    (acceptState rejectState start : String) : Except String TuringMachine :=
  match DecodeRuleSet
      { cursor := 0
        InputString := ""
        Tape := []
        Controller := NewMachine start
        AcceptState := ""
        RejectState := ""
        RuleSets := [] } decoded with
  | .error e => .error e
  | .ok t =>
    .ok (InitializeController
      { t with
        Tape := inputString.data
        InputString := inputString
        AcceptState := acceptState
        RejectState := rejectState }
      inputStatesArr start)

/-- The machine after `n` iterations of the loop body, without the test for the
accept or reject state. -/
def stepN : Nat → TuringMachine → Except String TuringMachine
  | 0, t => .ok t
  | n + 1, t =>
    match Step t with
    | .error e => .error e
    | .ok t1 => stepN n t1

/-- Every replacement symbol of the rule table is one ASCII character. -/
def AsciiSymbols (rules : List (String × List (String × Ruleset))) : Prop :=
  ∀ entry ∈ rules, ∀ symbolRuleSet ∈ entry.2,
    ∃ r : Char, symbolRuleSet.2.ReplacementSymbol = String.singleton r ∧ r.toNat < 128

/-- The transition rules the rule table gives rise to, in the order
`InitializeController` registers them. -/
def derivedTransitions (rules : List (String × List (String × Ruleset))) : List TransitionRule :=
  rules.flatMap fun entry =>
    entry.2.filterMap fun symbolRuleSet =>
      if entry.1 ≠ symbolRuleSet.2.NextState then
        some
          { EventName := entry.1 ++ symbolRuleSet.2.NextState
            CurrentState := entry.1
            DestinationState := symbolRuleSet.2.NextState }
      else none

/-- The controller of `t` is the one `InitializeController` builds from the
rule table of `t` and the declared state names `states`, in whatever state the
run has brought it to. -/
def Configured (t : TuringMachine) (states : List String) : Prop :=
  ∃ start, t.Controller =
    { (InitializeController t states start).Controller with
      CurrentState := t.Controller.CurrentState }

/-- Every character of the string is an ASCII character. -/
def IsASCII (s : String) : Prop :=
  ∀ c ∈ s.data, c.toNat < 128

/-! ## Example machines -/

/-- The four state names of the scenarios. -/
def scenarioStates : List String := ["s1", "s2", "sAccept", "sReject"]

/-- The rule table `s1:{a:(s2,b,R)}, s2:{b:(sAccept,b,R)}`. -/
def acceptingRules : List (String × List (String × Ruleset)) :=
  [("s1", [("a", ⟨"s2", "b", "R"⟩)]), ("s2", [("b", ⟨"sAccept", "b", "R"⟩)])]

/-- The machine of the accepting scenario at its start. -/
def acceptingMachine : TuringMachine :=
  initialMachine acceptingRules "ab" scenarioStates "sAccept" "sReject" "s1"

/-- The table `s1:{a:(s1,a,L)}` on the input `a`: a Left rule under a head at
position 0. -/
def leftAtStart : TuringMachine :=
  initialMachine [("s1", [("a", ⟨"s1", "a", "L"⟩)])] "a" scenarioStates "sAccept" "sReject" "s1"

/-- A table that walks right over `a` and has a rule for the blank, with
parameters for that rule and for the declared states. -/
def walkRules (blankRule : Ruleset) : List (String × List (String × Ruleset)) :=
  [("s1", [("a", ⟨"s1", "a", "R"⟩), ("_", blankRule)])]

/-- The machine on input `a` under `walkRules`, after its first step: the head
is at 1, past the end of the tape. -/
def pastTheEnd (blankRule : Ruleset) (states : List String) : TuringMachine :=
  { initialMachine (walkRules blankRule) "a" states "sAccept" "sReject" "s1" with cursor := 1 }

/-- The table `s1:{_:(s1,_,L)}` on the empty input. -/
def emptyTapeLeft : TuringMachine :=
  initialMachine [("s1", [("_", ⟨"s1", "_", "L"⟩)])] "" scenarioStates "sAccept" "sReject" "s1"

/-- The table `s1:{é:(s1,a,R)}` on the one-character input `é`, which is two
bytes long. -/
def twoByteInput : TuringMachine :=
  initialMachine [("s1", [("é", ⟨"s1", "a", "R"⟩)])] "é" scenarioStates "sAccept" "sReject" "s1"

/-- A machine started in its accept state, with a rule for that state. -/
def startedInAccept : TuringMachine :=
  initialMachine [("sAccept", [("a", ⟨"sReject", "b", "R"⟩)])] "a" scenarioStates
    "sAccept" "sReject" "sAccept"

/-- A machine whose accept and reject names coincide. -/
def oneHaltState : TuringMachine :=
  initialMachine [("s1", [("a", ⟨"sHalt", "a", "R"⟩)])] "a" ["s1", "sHalt"] "sHalt" "sHalt" "s1"

/-- A table with a two-character replacement symbol in a rule the run on `a`
never selects. -/
def unusedBadRule : List (String × List (String × Ruleset)) :=
  [("s1", [("a", ⟨"sAccept", "a", "R"⟩)]), ("s2", [("a", ⟨"s1", "xy", "R"⟩)])]

/-- A table whose only rule has the empty replacement symbol. -/
def emptySymbolRule : List (String × List (String × Ruleset)) :=
  [("s1", [("a", ⟨"s2", "", "R"⟩)])]

/-- A table that walks right over `é` and over `a`, writing `a`. -/
def mixedRules : List (String × List (String × Ruleset)) :=
  [("s1", [("é", ⟨"s1", "a", "R"⟩), ("a", ⟨"s1", "a", "R"⟩)])]

/-- The machine under `mixedRules` started on the given input. -/
def startedOn (inputString : String) : TuringMachine :=
  initialMachine mixedRules inputString scenarioStates "sAccept" "sReject" "s1"

/-- A table with the rules `a -> bc` and `ab -> c`. -/
def collidingRules : List (String × List (String × Ruleset)) :=
  [("a", [("x", ⟨"bc", "x", "R"⟩)]), ("ab", [("x", ⟨"c", "x", "R"⟩)])]

/-- The machine on input `aa` with the one rule `s1:{a:(s1,a,d)}`, the head at
position 1 of the tape. -/
def directionOnTape (d : String) : TuringMachine :=
  { initialMachine [("s1", [("a", ⟨"s1", "a", d⟩)])] "aa" scenarioStates "sAccept" "sReject" "s1"
    with cursor := 1 }

instance (s : String) : Decidable (IsASCII s) := by
  unfold IsASCII
  infer_instance

/-! ## Strings -/

theorem append_left_cancel {a b c : String} (h : a ++ b = a ++ c) : b = c := by
  apply String.ext
  have h1 := congrArg String.data h
  simp only [String.data_append] at h1
  exact List.append_cancel_left h1

theorem go_ge_length (l : List Char) : l.length ≤ String.utf8ByteSize.go l := by
  induction l with
  | nil => simp [String.utf8ByteSize.go]
  | cons c cs ih =>
    have := Char.utf8Size_pos c
    simp only [String.utf8ByteSize.go, List.length_cons]
    omega

theorem length_le_utf8ByteSize (s : String) : s.length ≤ s.utf8ByteSize := by
  cases s with
  | mk l => exact go_ge_length l

theorem utf8Size_of_ascii (c : Char) (h : c.toNat < 128) : c.utf8Size = 1 := by
  have h1 : c.val.toNat < 128 := h
  have h2 : c.val ≤ UInt32.ofNatCore 127 (by decide) := by
    show c.val.toNat ≤ 127
    omega
  unfold Char.utf8Size
  exact if_pos h2

theorem go_of_ascii (l : List Char) (h : ∀ c ∈ l, c.toNat < 128) :
    String.utf8ByteSize.go l = l.length := by
  induction l with
  | nil => simp [String.utf8ByteSize.go]
  | cons c cs ih =>
    have h1 := utf8Size_of_ascii c (h c (by simp))
    have h2 := ih (fun d hd => h d (by simp [hd]))
    simp only [String.utf8ByteSize.go, List.length_cons, h1, h2]

theorem utf8ByteSize_of_ascii (s : String) (h : IsASCII s) : s.utf8ByteSize = s.length := by
  cases s with
  | mk l => exact go_of_ascii l h

theorem ToRune_singleton (r : Char) (h : r.toNat < 128) : ToRune (String.singleton r) = .ok r := by
  have h1 : (String.singleton r).utf8ByteSize = 1 := by
    have : (String.singleton r).utf8ByteSize = String.utf8ByteSize.go [r] := rfl
    rw [this]
    simp [String.utf8ByteSize.go, utf8Size_of_ascii r h]
  have h2 : (String.singleton r).data = [r] := rfl
  simp [ToRune, h1, h2]

/-! ## Association lists -/

theorem mem_of_lookup {β : Type} (k : String) (l : List (String × β)) (v : β)
    (h : l.lookup k = some v) : (k, v) ∈ l := by
  induction l with
  | nil => simp [List.lookup] at h
  | cons e es ih =>
    obtain ⟨k1, v1⟩ := e
    simp only [List.lookup] at h
    by_cases hk : k = k1
    · subst hk
      simp at h
      simp [h]
    · have : (k == k1) = false := by simpa using hk
      rw [this] at h
      simp [ih h]

/-! ## The controller built by `InitializeController` -/

theorem foldl_AddState (states : List String) (m : StateMachine) :
    states.foldl (fun m name => m.AddState name) m = { m with States := m.States ++ states } := by
  induction states generalizing m with
  | nil => simp
  | cons s ss ih =>
    rw [List.foldl_cons, ih]
    simp [StateMachine.AddState]

theorem registerTransitions_eq (rules : List (String × List (String × Ruleset)))
    (m : StateMachine) :
    registerTransitions m rules =
      { m with Transitions := m.Transitions ++ derivedTransitions rules } := by
  unfold registerTransitions derivedTransitions
  induction rules generalizing m with
  | nil => simp
  | cons e es ih =>
    have inner : ∀ (val : List (String × Ruleset)) (m : StateMachine),
        val.foldl
          (fun m symbolRuleSet =>
            if e.1 ≠ symbolRuleSet.2.NextState then
              m.AddTransition
                { EventName := e.1 ++ symbolRuleSet.2.NextState
                  CurrentState := e.1
                  DestinationState := symbolRuleSet.2.NextState }
            else m) m =
          { m with Transitions := m.Transitions ++
              val.filterMap fun symbolRuleSet =>
                if e.1 ≠ symbolRuleSet.2.NextState then
                  some
                    { EventName := e.1 ++ symbolRuleSet.2.NextState
                      CurrentState := e.1
                      DestinationState := symbolRuleSet.2.NextState }
                else none } := by
      intro val
      induction val with
      | nil => intro m; simp
      | cons sr srs ih2 =>
        intro m
        rw [List.foldl_cons, ih2]
        by_cases hne : e.1 = sr.2.NextState
        · simp [hne]
        · simp [hne, StateMachine.AddTransition]
    rw [List.foldl_cons, inner, ih]
    simp [List.flatMap_cons]

theorem Configured.states {t : TuringMachine} {states : List String} (h : Configured t states) :
    t.Controller.States = states := by
  obtain ⟨start, h⟩ := h
  rw [h]
  simp [InitializeController, registerTransitions_eq, foldl_AddState, NewMachine]

theorem Configured.transitions {t : TuringMachine} {states : List String}
    (h : Configured t states) :
    t.Controller.Transitions = derivedTransitions t.RuleSets := by
  obtain ⟨start, h⟩ := h
  rw [h]
  simp [InitializeController, registerTransitions_eq, foldl_AddState, NewMachine]

theorem derivedTransitions_named (rules : List (String × List (String × Ruleset)))
    (r : TransitionRule) (h : r ∈ derivedTransitions rules) :
    r.EventName = r.CurrentState ++ r.DestinationState := by
  simp only [derivedTransitions, List.mem_flatMap, List.mem_filterMap] at h
  obtain ⟨e, _, sr, _, h⟩ := h
  split at h
  · simp at h
    subst h
    rfl
  · simp at h

theorem derivedTransitions_mem (rules : List (String × List (String × Ruleset)))
    (s sym : String) (val : List (String × Ruleset)) (rule : Ruleset)
    (hval : (s, val) ∈ rules) (hrule : (sym, rule) ∈ val) (hne : s ≠ rule.NextState) :
    ({ EventName := s ++ rule.NextState, CurrentState := s, DestinationState := rule.NextState } :
      TransitionRule) ∈ derivedTransitions rules := by
  simp only [derivedTransitions, List.mem_flatMap, List.mem_filterMap]
  exact ⟨(s, val), hval, (sym, rule), hrule, by simp [hne]⟩

/-- Emitting the event of a rule brings the controller to the rule's next
state, when the transitions are named by their two states, the transition of
the rule is registered unless it is a self-loop, and the next state is
declared. -/
theorem Emit_next (m : StateMachine) (next : String)
    (hnamed : ∀ r ∈ m.Transitions, r.EventName = r.CurrentState ++ r.DestinationState)
    (hreg : m.CurrentState ≠ next →
      ({ EventName := m.CurrentState ++ next, CurrentState := m.CurrentState,
         DestinationState := next } : TransitionRule) ∈ m.Transitions)
    (hnext : next ∈ m.States) :
    m.Emit (m.CurrentState ++ next) = { m with CurrentState := next } := by
  unfold StateMachine.Emit
  split
  · rename_i r hr
    have hp := List.find?_some hr
    have hm := List.mem_of_find?_eq_some hr
    simp only [Bool.and_eq_true, beq_iff_eq] at hp
    have h1 := hnamed r hm
    rw [hp.1, hp.2] at h1
    have h2 : r.DestinationState = next := (append_left_cancel h1).symm
    simp [h2, hnext]
  · rename_i hnone
    by_cases hc : m.CurrentState = next
    · cases m
      simp_all
    · have := List.find?_eq_none.mp hnone _ (hreg hc)
      simp at this

theorem not_off_tape_of_lt (t : TuringMachine) (htape : t.Tape.length = t.InputString.length)
    (h1 : t.cursor < t.Tape.length) : ¬ t.cursor ≥ (t.InputString.utf8ByteSize : Int) := by
  have := length_le_utf8ByteSize t.InputString
  omega

theorem off_tape_of_ascii (t : TuringMachine) (hascii : IsASCII t.InputString)
    (htape : t.Tape.length = t.InputString.length) (hoff : t.cursor ≥ t.Tape.length) :
    t.cursor ≥ (t.InputString.utf8ByteSize : Int) := by
  have := utf8ByteSize_of_ascii t.InputString hascii
  omega

/-- In a configured machine, emitting the event of a rule found for the
current state brings the controller to the rule's next state when that state
is declared. -/
theorem Emit_rule (t : TuringMachine) (states : List String) (sym : String)
    (val : List (String × Ruleset)) (rule : Ruleset) (hcfg : Configured t states)
    (hval : t.RuleSets.lookup t.Controller.CurrentState = some val)
    (hrule : val.lookup sym = some rule) (hnext : rule.NextState ∈ states) :
    t.Controller.Emit (t.Controller.CurrentState ++ rule.NextState) =
      { t.Controller with CurrentState := rule.NextState } := by
  apply Emit_next
  · intro r hr
    rw [hcfg.transitions] at hr
    exact derivedTransitions_named _ r hr
  · intro hne
    rw [hcfg.transitions]
    exact derivedTransitions_mem _ _ sym val rule (mem_of_lookup _ _ _ hval)
      (mem_of_lookup _ _ _ hrule) hne
  · rw [hcfg.states]
    exact hnext

/-- A step with no rule for the current state and the symbol returns the
machine as it is. -/
theorem stall_returns_machine (t : TuringMachine) (character : Char)
    (h : (t.RuleSets.lookup t.Controller.CurrentState).bind
      (fun val => val.lookup (String.singleton character)) = none) :
    ProcessAndMoveCursor t character = .ok t := by
  cases hval : t.RuleSets.lookup t.Controller.CurrentState with
  | none => simp only [ProcessAndMoveCursor, hval]
  | some val =>
    rw [hval] at h
    simp only [Option.bind] at h
    simp only [ProcessAndMoveCursor, hval, h]

/-- Emitting an event changes at most the current state of the controller. -/
theorem Emit_frame (m : StateMachine) (event : String) :
    (m.Emit event).States = m.States ∧ (m.Emit event).Transitions = m.Transitions := by
  unfold StateMachine.Emit
  split
  · split <;> exact ⟨rfl, rfl⟩
  · exact ⟨rfl, rfl⟩

/-- A step that returns leaves the input string, the accept and reject names,
the rule table, the declared states and the registered transitions as they
were. -/
theorem ProcessAndMoveCursor_frame (t t1 : TuringMachine) (character : Char)
    (h : ProcessAndMoveCursor t character = .ok t1) :
    t1.InputString = t.InputString ∧ t1.AcceptState = t.AcceptState ∧
      t1.RejectState = t.RejectState ∧ t1.RuleSets = t.RuleSets ∧
      t1.Controller.States = t.Controller.States ∧
      t1.Controller.Transitions = t.Controller.Transitions := by
  unfold ProcessAndMoveCursor at h
  simp only at h
  split at h
  · split at h
    · split at h
      · split at h
        · unfold StateMachine.SetState at h
          split at h
          · rename_i c hc
            split at hc
            · cases hc
              cases h
              exact ⟨rfl, rfl, rfl, rfl, rfl, rfl⟩
            · cases hc
          · cases h
        · cases h
          exact ⟨rfl, rfl, rfl, rfl, (Emit_frame _ _).1, (Emit_frame _ _).2⟩
      · split at h
        · cases h
        · split at h
          · cases h
          · cases h
            exact ⟨rfl, rfl, rfl, rfl, (Emit_frame _ _).1, (Emit_frame _ _).2⟩
    · cases h
      exact ⟨rfl, rfl, rfl, rfl, rfl, rfl⟩
  · cases h
    exact ⟨rfl, rfl, rfl, rfl, rfl, rfl⟩

/-- One iteration of the loop that returns leaves the accept and reject names
as they were. -/
theorem Step_frame (t t1 : TuringMachine) (h : Step t = .ok t1) :
    t1.AcceptState = t.AcceptState ∧ t1.RejectState = t.RejectState := by
  unfold Step at h
  split at h
  · have := ProcessAndMoveCursor_frame t t1 _ h
    exact ⟨this.2.1, this.2.2.1⟩
  · cases h

/-! ## The step -/

/-- C1: in-bounds step.  In a configuration with `0 ≤ Head < len(Tape)`, for
the rule found for the current state and the symbol handed to the step (so in
particular for the symbol `Tape[Head]`), with a replacement symbol that is one ASCII character and a declared next state,
`ProcessAndMoveCursor` returns, having written the replacement symbol at index
`Head`, moved the head to `Head + 1` for direction R and to `Head - 1` for
direction L with `Head > 0`, and set the current state to the next state. -/
theorem C1_in_bounds_step (t : TuringMachine) (states : List String) (c r : Char)
    (val : List (String × Ruleset)) (rule : Ruleset)
    (hcfg : Configured t states)
    (htape : t.Tape.length = t.InputString.length)
    (h0 : 0 ≤ t.cursor) (h1 : t.cursor < t.Tape.length)
    (hval : t.RuleSets.lookup t.Controller.CurrentState = some val)
    (hrule : val.lookup (String.singleton c) = some rule)
    (hsym : rule.ReplacementSymbol = String.singleton r) (hascii : r.toNat < 128)
    (hnext : rule.NextState ∈ states) :
    ∃ t1, ProcessAndMoveCursor t c = .ok t1 ∧
      t1.Tape = t.Tape.set t.cursor.toNat r ∧
      t1.Tape[t.cursor.toNat]? = some r ∧
      ((rule.Direction = "R" ∨ rule.Direction = "r") → t1.cursor = t.cursor + 1) ∧
      ((rule.Direction = "L" ∨ rule.Direction = "l") → 0 < t.cursor →
        t1.cursor = t.cursor - 1) ∧
      t1.Controller.CurrentState = rule.NextState := by
  have hin := not_off_tape_of_lt t htape h1
  have hw : 0 ≤ t.cursor ∧ t.cursor.toNat < t.Tape.length := ⟨h0, by omega⟩
  have hemit := Emit_rule t states _ val rule hcfg hval hrule hnext
  refine ⟨{ t with
      Tape := t.Tape.set t.cursor.toNat r
      cursor :=
        if (rule.Direction = "L" ∨ rule.Direction = "l") ∧ t.cursor ≠ 0 then t.cursor - 1
        else t.cursor + 1
      Controller := { t.Controller with CurrentState := rule.NextState } }, ?_, ?_, ?_, ?_, ?_, ?_⟩
  · simp only [ProcessAndMoveCursor, hval, hrule, if_neg hin, hsym, ToRune_singleton r hascii,
      writeTape, if_pos hw, hemit]
  · rfl
  · simp [List.getElem?_set, hw.2]
  · intro hd
    have hnl : ¬ (rule.Direction = "L" ∨ rule.Direction = "l") := by
      rcases hd with hd | hd <;> rw [hd] <;> decide
    simp [hnl]
  · intro hd hpos
    have hne : t.cursor ≠ 0 := by omega
    simp [hd, hne]
  · rfl

/-- Witness of C1: the first step of the accepting scenario. -/
theorem C1_in_bounds_step_witness :
    ∃ t1, ProcessAndMoveCursor acceptingMachine 'a' = .ok t1 ∧
      t1.Tape = acceptingMachine.Tape.set acceptingMachine.cursor.toNat 'b' ∧
      t1.Tape[acceptingMachine.cursor.toNat]? = some 'b' ∧
      (("R" : String) = "R" ∨ ("R" : String) = "r" → t1.cursor = acceptingMachine.cursor + 1) ∧
      (("R" : String) = "L" ∨ ("R" : String) = "l" → 0 < acceptingMachine.cursor →
        t1.cursor = acceptingMachine.cursor - 1) ∧
      t1.Controller.CurrentState = "s2" :=
  C1_in_bounds_step acceptingMachine scenarioStates 'a' 'b' [("a", ⟨"s2", "b", "R"⟩)]
    ⟨"s2", "b", "R"⟩ ⟨"s1", by decide⟩ (by decide) (by decide) (by decide) (by decide)
    (by decide) (by decide) (by decide) (by decide)

/-- C2: a Left rule at position 0 of a non-empty tape does not leave the head
at 0: the step moves it to position 1.  Evaluated on the table
`s1:{a:(s1,a,L)}`, input `a`, head 0. -/
theorem C2_left_at_boundary_moves_right :
    leftAtStart.cursor = 0 ∧ leftAtStart.Tape = ['a'] ∧
      CurrentTapeValue leftAtStart = .ok 'a' ∧
      ProcessAndMoveCursor leftAtStart 'a' = .ok { leftAtStart with cursor := 1 } :=
  ⟨by decide, by decide, rfl, rfl⟩

/-- C3: off-tape Right policy.  In a configuration with `Head ≥ len(Tape)` on
an ASCII input, whose reject state is one of the declared states as the data
model requires of the state set, and with a Right-directed rule found for the
current state and the blank, the step returns with the current state set to the
reject state, whatever the rule's next state; the tape, the head and the rest
of the machine are as before. -/
theorem C3_off_tape_right (t : TuringMachine) (val : List (String × Ruleset)) (rule : Ruleset)
    (hascii : IsASCII t.InputString)
    (htape : t.Tape.length = t.InputString.length)
    (hoff : t.cursor ≥ (t.Tape.length : Int))
    (hrej : t.RejectState ∈ t.Controller.States)
    (hval : t.RuleSets.lookup t.Controller.CurrentState = some val)
    (hrule : val.lookup (String.singleton '_') = some rule)
    (hdir : rule.Direction = "R" ∨ rule.Direction = "r") :
    ProcessAndMoveCursor t '_' =
      .ok { t with Controller := { t.Controller with CurrentState := t.RejectState } } := by
  have hge := off_tape_of_ascii t hascii htape hoff
  simp only [ProcessAndMoveCursor, hval, hrule, if_pos hge, if_pos hdir,
    StateMachine.SetState, if_pos hrej]

/-- Witness of C3: past the end of the input `a`, with the rule `(s2,_,R)` for
the blank, the step leaves the machine in the state `sReject`, not `s2`. -/
theorem C3_off_tape_right_witness :
    ProcessAndMoveCursor (pastTheEnd ⟨"s2", "_", "R"⟩ scenarioStates) '_' =
      .ok { pastTheEnd ⟨"s2", "_", "R"⟩ scenarioStates with
        Controller :=
          { (pastTheEnd ⟨"s2", "_", "R"⟩ scenarioStates).Controller with
            CurrentState := (pastTheEnd ⟨"s2", "_", "R"⟩ scenarioStates).RejectState } } :=
  C3_off_tape_right (pastTheEnd ⟨"s2", "_", "R"⟩ scenarioStates)
    [("a", ⟨"s1", "a", "R"⟩), ("_", ⟨"s2", "_", "R"⟩)] ⟨"s2", "_", "R"⟩
    (by decide) (by decide) (by decide) (by decide) (by decide) (by decide) (by decide)

/-- C4: off-tape Left policy.  In a configuration with `Head ≥ len(Tape)` on an
ASCII input and a Left-directed rule found for the current state and the blank
whose next state is declared, the step returns with the head decremented by
exactly one and the current state set to the rule's next state; the tape and
the rest of the machine are as before, so the replacement symbol is not
written. -/
theorem C4_off_tape_left (t : TuringMachine) (states : List String)
    (val : List (String × Ruleset)) (rule : Ruleset)
    (hcfg : Configured t states)
    (hascii : IsASCII t.InputString)
    (htape : t.Tape.length = t.InputString.length)
    (hoff : t.cursor ≥ (t.Tape.length : Int))
    (hval : t.RuleSets.lookup t.Controller.CurrentState = some val)
    (hrule : val.lookup (String.singleton '_') = some rule)
    (hdir : rule.Direction = "L" ∨ rule.Direction = "l")
    (hnext : rule.NextState ∈ states) :
    ProcessAndMoveCursor t '_' =
      .ok { t with
        cursor := t.cursor - 1
        Controller := { t.Controller with CurrentState := rule.NextState } } := by
  have hge := off_tape_of_ascii t hascii htape hoff
  have hemit := Emit_rule t states _ val rule hcfg hval hrule hnext
  have hnr : ¬ (rule.Direction = "R" ∨ rule.Direction = "r") := by
    rcases hdir with hd | hd <;> rw [hd] <;> decide
  simp only [ProcessAndMoveCursor, hval, hrule, if_pos hge, if_neg hnr, hemit]

/-- Witness of C4: past the end of the input `a`, with the rule `(s2,x,L)` for
the blank. -/
theorem C4_off_tape_left_witness :
    ProcessAndMoveCursor (pastTheEnd ⟨"s2", "x", "L"⟩ scenarioStates) '_' =
      .ok { pastTheEnd ⟨"s2", "x", "L"⟩ scenarioStates with
        cursor := (pastTheEnd ⟨"s2", "x", "L"⟩ scenarioStates).cursor - 1
        Controller :=
          { (pastTheEnd ⟨"s2", "x", "L"⟩ scenarioStates).Controller with
            CurrentState := "s2" } } :=
  C4_off_tape_left (pastTheEnd ⟨"s2", "x", "L"⟩ scenarioStates) scenarioStates
    [("a", ⟨"s1", "a", "R"⟩), ("_", ⟨"s2", "x", "L"⟩)] ⟨"s2", "x", "L"⟩
    ⟨"s1", by decide⟩ (by decide) (by decide) (by decide) (by decide) (by decide) (by decide)
    (by decide)

/-- C5: a stall is a no-op.  When the rule table has no entry for the current
state, or its entry for the current state has none for the symbol handed to
the step, `ProcessAndMoveCursor` returns without a panic and the machine, so
its current state, tape and head, is unchanged. -/
theorem C5_stall_noop (t : TuringMachine) (character : Char)
    (h : t.RuleSets.lookup t.Controller.CurrentState = none ∨
      ∃ val, t.RuleSets.lookup t.Controller.CurrentState = some val ∧
        val.lookup (String.singleton character) = none) :
    ProcessAndMoveCursor t character = .ok t := by
  rcases h with h | ⟨val, hval, hsym⟩
  · simp only [ProcessAndMoveCursor, h]
  · simp only [ProcessAndMoveCursor, hval, hsym]

/-- Witness of C5: the accepting machine has no rule for `(s1, b)`. -/
theorem C5_stall_noop_witness : ProcessAndMoveCursor acceptingMachine 'b' = .ok acceptingMachine :=
  C5_stall_noop acceptingMachine 'b' (Or.inr ⟨[("a", ⟨"s2", "b", "R"⟩)], by decide, by decide⟩)

/-- C6: on the empty tape the boundary is not clamped.  With the table
`s1:{_:(s1,_,L)}` and the empty input, the head is 0, the symbol read is the
blank, and the step with the Left-directed rule leaves the head at -1; the
read of the next iteration then panics. -/
theorem C6_empty_tape_left_goes_negative :
    emptyTapeLeft.Tape = [] ∧ emptyTapeLeft.cursor = 0 ∧
      CurrentTapeValue emptyTapeLeft = .ok '_' ∧
      ProcessAndMoveCursor emptyTapeLeft '_' = .ok { emptyTapeLeft with cursor := -1 } ∧
      Step { emptyTapeLeft with cursor := -1 } = .error "index out of range" :=
  ⟨by decide, by decide, rfl, rfl, rfl⟩

/-- C7: a read past the end of a non-ASCII input is not blank.  On the input
`é`, one character and two bytes, the first step moves the head to 1, which is
the tape length, and `CurrentTapeValue` then indexes the tape out of range. -/
theorem C7_read_past_end_non_ascii_panics :
    twoByteInput.Tape = "é".data ∧
      Step twoByteInput = .ok { twoByteInput with cursor := 1, Tape := ['a'] } ∧
      ({ twoByteInput with cursor := 1, Tape := ['a'] } : TuringMachine).cursor ≥
        (({ twoByteInput with cursor := 1, Tape := ['a'] } : TuringMachine).Tape.length : Int) ∧
      CurrentTapeValue { twoByteInput with cursor := 1, Tape := ['a'] } =
        .error "index out of range" :=
  ⟨by decide, rfl, by decide, rfl⟩

/-! ## The run loop -/

theorem runLoop_succ (fuel : Nat) (t : TuringMachine) :
    runLoop (fuel + 1) t =
      match Step t with
      | .error e => .panicked e
      | .ok t1 => if isTerminal t1 then .halted (verdictOf t1) t1 else runLoop fuel t1 := rfl

/-- C8: the accepting scenario.  With the states `s1,s2,sAccept,sReject`, the
table `s1:{a:(s2,b,R)}, s2:{b:(sAccept,b,R)}`, the input `ab`, the start state
`s1` and the head at 0, the loop has not halted after one step and halts after
the second, whatever the number of further iterations allowed, with the verdict
Accepted, the final tape `bb`, the head at 2 and the state `sAccept`. -/
theorem C8_accepting_scenario :
    acceptingMachine.cursor = 0 ∧ acceptingMachine.Tape = "ab".data ∧
      acceptingMachine.Controller.CurrentState = "s1" ∧
      (∃ t, StartComputing acceptingRules "ab" scenarioStates "sAccept" "sReject" "s1" 1 =
        .running t) ∧
      ∀ k, StartComputing acceptingRules "ab" scenarioStates "sAccept" "sReject" "s1" (k + 2) =
        .halted .Accepted
          { acceptingMachine with
            cursor := 2
            Tape := "bb".data
            Controller := { acceptingMachine.Controller with CurrentState := "sAccept" } } :=
  ⟨by decide, by decide, by decide, ⟨_, rfl⟩, fun _ => rfl⟩

/-- C9, as stated, fails: the loop steps before it tests for the accept or
reject state.  Started in the accept state `sAccept` on the input `a` with the
rule `sAccept:{a:(sReject,b,R)}`, the loop applies that rule and returns the
verdict Rejected with the tape `b`, the head at 1 and the state `sReject`. -/
theorem C9_counterexample_started_in_accept :
    startedInAccept.Controller.CurrentState = startedInAccept.AcceptState ∧
      startedInAccept.Tape = ['a'] ∧ startedInAccept.cursor = 0 ∧
      runLoop 1 startedInAccept =
        .halted .Rejected
          { startedInAccept with
            cursor := 1
            Tape := ['b']
            Controller := { startedInAccept.Controller with CurrentState := "sReject" } } ∧
      runLoop 3 startedInAccept =
        .halted .Rejected
          { startedInAccept with
            cursor := 1
            Tape := ['b']
            Controller := { startedInAccept.Controller with CurrentState := "sReject" } } :=
  ⟨by decide, by decide, by decide, rfl, rfl⟩

/-- C9, amended: the loop tests for the accept or reject state after each
step.  Once a step leaves the current state equal to the accept or the reject
state the loop applies no further rule and returns its verdict with the machine
as that step left it; and in a configuration whose current state already is the
accept or the reject state and for whose symbol under the head the table has no
rule, the loop returns its verdict with the current state, the tape and the
head exactly as they were. -/
theorem C9_terminal_after_step (fuel : Nat) (t : TuringMachine) :
    (∀ t1, Step t = .ok t1 →
      (t1.Controller.CurrentState = t1.AcceptState ∨
        t1.Controller.CurrentState = t1.RejectState) →
      runLoop (fuel + 1) t = .halted (verdictOf t1) t1) ∧
    (∀ character, CurrentTapeValue t = .ok character →
      (t.Controller.CurrentState = t.AcceptState ∨ t.Controller.CurrentState = t.RejectState) →
      (t.RuleSets.lookup t.Controller.CurrentState).bind
        (fun val => val.lookup (String.singleton character)) = none →
      runLoop (fuel + 1) t = .halted (verdictOf t) t) := by
  have key : ∀ t1, Step t = .ok t1 →
      (t1.Controller.CurrentState = t1.AcceptState ∨
        t1.Controller.CurrentState = t1.RejectState) →
      runLoop (fuel + 1) t = .halted (verdictOf t1) t1 := by
    intro t1 hstep hterm
    have hT : isTerminal t1 = true := by
      simpa [isTerminal, StateMachine.GetCurrentState] using hterm
    rw [runLoop_succ, hstep]
    simp only [hT, if_true]
  refine ⟨key, ?_⟩
  intro character hread hterm hnone
  apply key t _ hterm
  have hstall : ProcessAndMoveCursor t character = .ok t := by
    apply stall_returns_machine
    exact hnone
  simp only [Step, hread, hstall]

/-- Witness of C9: the step of a machine past the end with a Right rule reaches
the reject state and the loop halts there; and the final machine of the
accepting scenario, in the accept state with no rule, is returned as it is. -/
theorem C9_terminal_after_step_witness :
    runLoop 1 (pastTheEnd ⟨"s2", "_", "R"⟩ scenarioStates) =
        .halted
          (verdictOf
            { pastTheEnd ⟨"s2", "_", "R"⟩ scenarioStates with
              Controller :=
                { (pastTheEnd ⟨"s2", "_", "R"⟩ scenarioStates).Controller with
                  CurrentState := "sReject" } })
          { pastTheEnd ⟨"s2", "_", "R"⟩ scenarioStates with
            Controller :=
              { (pastTheEnd ⟨"s2", "_", "R"⟩ scenarioStates).Controller with
                CurrentState := "sReject" } } ∧
      runLoop 1
          { acceptingMachine with
            cursor := 2
            Tape := "bb".data
            Controller := { acceptingMachine.Controller with CurrentState := "sAccept" } } =
        .halted
          (verdictOf
            { acceptingMachine with
              cursor := 2
              Tape := "bb".data
              Controller := { acceptingMachine.Controller with CurrentState := "sAccept" } })
          { acceptingMachine with
            cursor := 2
            Tape := "bb".data
            Controller := { acceptingMachine.Controller with CurrentState := "sAccept" } } :=
  ⟨(C9_terminal_after_step 0 (pastTheEnd ⟨"s2", "_", "R"⟩ scenarioStates)).1 _ rfl
      (Or.inr (by decide)),
    (C9_terminal_after_step 0 _).2 '_' rfl (Or.inl (by decide)) (by decide)⟩

/-- C10: the verdict.  Whenever the loop halts, the final current state is the
accept state or the reject state of the machine it was started on, and the
verdict is Accepted exactly when the final current state is the accept state,
so also when the accept and reject names coincide, and Rejected exactly when it
is not. -/
theorem C10_verdict (fuel : Nat) (t t1 : TuringMachine) (v : Verdict)
    (h : runLoop fuel t = .halted v t1) :
    t1.AcceptState = t.AcceptState ∧ t1.RejectState = t.RejectState ∧
      (t1.Controller.CurrentState = t.AcceptState ∨
        t1.Controller.CurrentState = t.RejectState) ∧
      (v = .Accepted ↔ t1.Controller.CurrentState = t.AcceptState) ∧
      (v = .Rejected ↔ t1.Controller.CurrentState ≠ t.AcceptState) := by
  induction fuel generalizing t with
  | zero => simp [runLoop] at h
  | succ n ih =>
    rw [runLoop_succ] at h
    cases hstep : Step t with
    | error e => simp [hstep] at h
    | ok t2 =>
      have hfr := Step_frame t t2 hstep
      simp only [hstep] at h
      by_cases hT : isTerminal t2 = true
      · simp only [hT, if_true, RunResult.halted.injEq] at h
        obtain ⟨hv, ht⟩ := h
        subst ht
        simp only [isTerminal, StateMachine.GetCurrentState, Bool.or_eq_true, beq_iff_eq] at hT
        rw [← hfr.1, ← hfr.2]
        refine ⟨rfl, rfl, hT, ?_, ?_⟩
        · rw [← hv]
          unfold verdictOf StateMachine.GetCurrentState
          split <;> simp_all
        · rw [← hv]
          unfold verdictOf StateMachine.GetCurrentState
          split <;> simp_all
      · simp only [hT] at h
        have := ih t2 h
        rw [← hfr.1, ← hfr.2]
        exact this

/-- Witness of C10: a machine whose accept and reject names are both `sHalt`
halts with the verdict Accepted. -/
theorem C10_verdict_witness :
    ({ oneHaltState with
        cursor := 1
        Controller := { oneHaltState.Controller with CurrentState := "sHalt" } } :
        TuringMachine).AcceptState = oneHaltState.AcceptState ∧
      ({ oneHaltState with
        cursor := 1
        Controller := { oneHaltState.Controller with CurrentState := "sHalt" } } :
        TuringMachine).RejectState = oneHaltState.RejectState ∧
      (("sHalt" : String) = oneHaltState.AcceptState ∨
        ("sHalt" : String) = oneHaltState.RejectState) ∧
      (Verdict.Accepted = .Accepted ↔ ("sHalt" : String) = oneHaltState.AcceptState) ∧
      (Verdict.Accepted = .Rejected ↔ ("sHalt" : String) ≠ oneHaltState.AcceptState) :=
  C10_verdict 1 oneHaltState
    { oneHaltState with
      cursor := 1
      Controller := { oneHaltState.Controller with CurrentState := "sHalt" } }
    .Accepted rfl

/-! ## Setup and `ToRune` -/

/-- A text that is not exactly one character long is refused by `ToRune`. -/
theorem ToRune_error_of_length (text : String) (h : text.length ≠ 1) :
    ∃ e, ToRune text = .error e := by
  unfold ToRune
  by_cases hb : text.utf8ByteSize > 1
  · exact ⟨_, if_pos hb⟩
  · rw [if_neg hb]
    have hle := length_le_utf8ByteSize text
    have hlen : text.data.length = text.length := rfl
    cases hd : text.data with
    | nil => exact ⟨_, rfl⟩
    | cons c cs =>
      rw [hd] at hlen
      simp only [List.length_cons] at hlen
      cases cs with
      | nil => simp at hlen; omega
      | cons c2 cs2 => simp only [List.length_cons] at hlen; omega

/-- The setup succeeds on every decoded table and gives the initial machine. -/
theorem buildMachine_ok (rules : List (String × List (String × Ruleset))) (inputString : String)
    (states : List String) (acceptState rejectState start : String) :
    buildMachine (.ok rules) inputString states acceptState rejectState start =
      .ok (initialMachine rules inputString states acceptState rejectState start) := rfl

/-- C11, as stated, fails: a table with a two-character replacement symbol in
a rule the run never selects is set up without an error and the run on `a`
halts with the verdict Accepted; and a table whose rule has the empty
replacement symbol is set up without an error too, the panic coming from the
first step of the loop. -/
theorem C11_counterexample_setup_accepts_malformed :
    (("s2", [("a", (⟨"s1", "xy", "R"⟩ : Ruleset))]) ∈ unusedBadRule ∧ ("xy" : String).length = 2) ∧
      buildMachine (.ok unusedBadRule) "a" scenarioStates "sAccept" "sReject" "s1" =
        .ok (initialMachine unusedBadRule "a" scenarioStates "sAccept" "sReject" "s1") ∧
      runLoop 1 (initialMachine unusedBadRule "a" scenarioStates "sAccept" "sReject" "s1") =
        .halted .Accepted
          { initialMachine unusedBadRule "a" scenarioStates "sAccept" "sReject" "s1" with
            cursor := 1
            Controller :=
              { (initialMachine unusedBadRule "a" scenarioStates "sAccept" "sReject"
                  "s1").Controller with CurrentState := "sAccept" } } ∧
      (("s1", [("a", (⟨"s2", "", "R"⟩ : Ruleset))]) ∈ emptySymbolRule ∧ ("" : String).length = 0) ∧
      buildMachine (.ok emptySymbolRule) "a" scenarioStates "sAccept" "sReject" "s1" =
        .ok (initialMachine emptySymbolRule "a" scenarioStates "sAccept" "sReject" "s1") ∧
      runLoop 1 (initialMachine emptySymbolRule "a" scenarioStates "sAccept" "sReject" "s1") =
        .panicked "index out of range" :=
  ⟨⟨by decide, by decide⟩, rfl, rfl, ⟨by decide, by decide⟩, rfl, rfl⟩

/-- C11, amended: the setup, `DecodeRuleSet` followed by
`InitializeController`, succeeds on every table that decodes, whatever its
replacement symbols; a rule whose replacement symbol is not exactly one
character makes the step that applies it on the tape, with the cursor below the
byte length of the input, panic. -/
theorem C11_malformed_symbol_fails_in_step (rules : List (String × List (String × Ruleset)))
    (inputString : String) (states : List String) (acceptState rejectState start : String) :
    buildMachine (.ok rules) inputString states acceptState rejectState start =
        .ok (initialMachine rules inputString states acceptState rejectState start) ∧
      (initialMachine rules inputString states acceptState rejectState start).RuleSets = rules ∧
      ∀ (t : TuringMachine) (character : Char) (val : List (String × Ruleset)) (rule : Ruleset),
        t.RuleSets.lookup t.Controller.CurrentState = some val →
        val.lookup (String.singleton character) = some rule →
        rule.ReplacementSymbol.length ≠ 1 →
        ¬ t.cursor ≥ (t.InputString.utf8ByteSize : Int) →
        ∃ e, ProcessAndMoveCursor t character = .error e := by
  refine ⟨rfl, rfl, ?_⟩
  intro t character val rule hval hrule hlen hin
  obtain ⟨e, he⟩ := ToRune_error_of_length _ hlen
  exact ⟨e, by simp only [ProcessAndMoveCursor, hval, hrule, if_neg hin, he]⟩

/-- Witness of C11: the table with the empty replacement symbol is set up, and
its rule panics in the first step. -/
theorem C11_malformed_symbol_fails_in_step_witness :
    ∃ e, ProcessAndMoveCursor
      (initialMachine emptySymbolRule "a" scenarioStates "sAccept" "sReject" "s1") 'a' =
        .error e :=
  (C11_malformed_symbol_fails_in_step emptySymbolRule "a" scenarioStates "sAccept" "sReject"
    "s1").2.2 _ 'a' [("a", ⟨"s2", "", "R"⟩)] ⟨"s2", "", "R"⟩ (by decide) (by decide) (by decide)
    (by decide)

/-- C12: a text of one non-ASCII character is refused.  The text `é` is one
character and two bytes long, and `ToRune` panics on it instead of returning
the character. -/
theorem C12_ToRune_refuses_non_ascii_character :
    ("é" : String).length = 1 ∧ ("é" : String).utf8ByteSize = 2 ∧
      ToRune "é" = .error "Character cant be converted to rune " :=
  ⟨by decide, by decide, rfl⟩

/-- C13: two machines that agree on the current state, the tape and the head
step differently.  Under one rule table, the machine started on `é` and the
machine started on `a` both reach, in one step, the state `s1`, the tape `a`
and the head 1; the next step of the first panics on its read of the tape,
the next step of the second is a stall that returns. -/
theorem C13_step_depends_on_input_string :
    stepN 1 (startedOn "é") = .ok { startedOn "é" with cursor := 1, Tape := ['a'] } ∧
      stepN 1 (startedOn "a") = .ok { startedOn "a" with cursor := 1 } ∧
      ({ startedOn "é" with cursor := 1, Tape := ['a'] } : TuringMachine).Controller =
        ({ startedOn "a" with cursor := 1 } : TuringMachine).Controller ∧
      ({ startedOn "é" with cursor := 1, Tape := ['a'] } : TuringMachine).Tape =
        ({ startedOn "a" with cursor := 1 } : TuringMachine).Tape ∧
      ({ startedOn "é" with cursor := 1, Tape := ['a'] } : TuringMachine).cursor =
        ({ startedOn "a" with cursor := 1 } : TuringMachine).cursor ∧
      ({ startedOn "é" with cursor := 1, Tape := ['a'] } : TuringMachine).RuleSets =
        ({ startedOn "a" with cursor := 1 } : TuringMachine).RuleSets ∧
      Step { startedOn "é" with cursor := 1, Tape := ['a'] } = .error "index out of range" ∧
      Step { startedOn "a" with cursor := 1 } = .ok { startedOn "a" with cursor := 1 } :=
  ⟨rfl, rfl, by decide, by decide, by decide, by decide, rfl, rfl⟩

/-! ## The effect of a step on the tape and the head -/

/-- A write that returns was in range and sets the one cell. -/
theorem writeTape_ok (tape tape1 : List Char) (i : Int) (r : Char)
    (h : writeTape tape i r = .ok tape1) :
    0 ≤ i ∧ i.toNat < tape.length ∧ tape1 = tape.set i.toNat r := by
  unfold writeTape at h
  split at h
  · rename_i hr
    cases h
    exact ⟨hr.1, hr.2, rfl⟩
  · cases h

/-- A step that returns either leaves the tape as it is, with the head where it
was or, past the byte length of the input, one position back; or it has
written one cell at the head, which was in range, and moved the head by one. -/
theorem ProcessAndMoveCursor_shape (t t1 : TuringMachine) (character : Char)
    (h : ProcessAndMoveCursor t character = .ok t1) :
    (t1.Tape = t.Tape ∧
      (t1.cursor = t.cursor ∨
        (t.cursor ≥ (t.InputString.utf8ByteSize : Int) ∧ t1.cursor = t.cursor - 1))) ∨
    (0 ≤ t.cursor ∧ t.cursor.toNat < t.Tape.length ∧
      ¬ t.cursor ≥ (t.InputString.utf8ByteSize : Int) ∧
      (∃ r, t1.Tape = t.Tape.set t.cursor.toNat r) ∧
      (t1.cursor = t.cursor + 1 ∨ (t.cursor ≠ 0 ∧ t1.cursor = t.cursor - 1))) := by
  unfold ProcessAndMoveCursor at h
  simp only at h
  split at h
  · split at h
    · split at h
      · rename_i hoff
        split at h
        · unfold StateMachine.SetState at h
          split at h
          · rename_i c hc
            split at hc
            · cases hc
              cases h
              exact Or.inl ⟨rfl, Or.inl rfl⟩
            · cases hc
          · cases h
        · cases h
          exact Or.inl ⟨rfl, Or.inr ⟨hoff, rfl⟩⟩
      · rename_i hin
        split at h
        · cases h
        · split at h
          · cases h
          · rename_i r hr tape htape
            obtain ⟨h0, h1, hset⟩ := writeTape_ok _ _ _ _ htape
            cases h
            refine Or.inr ⟨h0, h1, hin, ⟨_, hset⟩, ?_⟩
            simp only
            split
            · rename_i hc
              exact Or.inr ⟨hc.2, rfl⟩
            · exact Or.inl rfl
    · cases h
      exact Or.inl ⟨rfl, Or.inl rfl⟩
  · cases h
    exact Or.inl ⟨rfl, Or.inl rfl⟩

/-- C14: fixed-length tape and single-cell write.  A step that returns, on any
machine, any rule table and any symbol handed to it, leaves the length of the
tape unchanged and leaves every tape cell other than the one at the head
position before the step unchanged. -/
theorem C14_single_cell_write (t t1 : TuringMachine) (character : Char)
    (h : ProcessAndMoveCursor t character = .ok t1) :
    t1.Tape.length = t.Tape.length ∧
      ∀ i : Nat, (i : Int) ≠ t.cursor → t1.Tape[i]? = t.Tape[i]? := by
  rcases ProcessAndMoveCursor_shape t t1 character h with ⟨htape, _⟩ | ⟨h0, _, _, ⟨r, hset⟩, _⟩
  · rw [htape]
    exact ⟨rfl, fun _ _ => rfl⟩
  · rw [hset]
    refine ⟨List.length_set _ _ _, ?_⟩
    intro i hi
    have hne : t.cursor.toNat ≠ i := by omega
    simp [List.getElem?_set, hne]

/-- Witness of C14: the first step of the accepting scenario. -/
theorem C14_single_cell_write_witness :
    ({ acceptingMachine with
        cursor := 1
        Tape := "bb".data
        Controller := { acceptingMachine.Controller with CurrentState := "s2" } } :
        TuringMachine).Tape.length = acceptingMachine.Tape.length ∧
      ∀ i : Nat, (i : Int) ≠ acceptingMachine.cursor →
        ({ acceptingMachine with
          cursor := 1
          Tape := "bb".data
          Controller := { acceptingMachine.Controller with CurrentState := "s2" } } :
          TuringMachine).Tape[i]? = acceptingMachine.Tape[i]? :=
  C14_single_cell_write acceptingMachine _ 'a' rfl

/-! ## Completion -/

theorem isCompletedLoop_iff (tape : List Char) :
    isCompletedLoop tape = true ↔ ∀ c ∈ tape, c = 'x' ∨ c = 'y' ∨ c = 'z' ∨ c = '_' := by
  induction tape with
  | nil => simp [isCompletedLoop]
  | cons val rest ih =>
    unfold isCompletedLoop
    by_cases hv : val = 'x' ∨ val = 'y' ∨ val = 'z' ∨ val = '_'
    · rw [if_pos hv, ih]
      simp [hv]
    · rw [if_neg hv]
      simp [hv]

/-- C15: the method `IsCompleted` returns true exactly when every cell of the
tape is one of x, y, z or the blank, so it returns true on the empty tape, and
it leaves the machine as it was. -/
theorem C15_IsCompleted (t : TuringMachine) :
    ((IsCompleted t).1 = true ↔ ∀ c ∈ t.Tape, c = 'x' ∨ c = 'y' ∨ c = 'z' ∨ c = '_') ∧
      (IsCompleted { t with Tape := [] }).1 = true ∧
      (IsCompleted t).2 = t :=
  ⟨isCompletedLoop_iff t.Tape, rfl, rfl⟩

/-! ## Stalls -/

/-- C16: a stall never produces a verdict.  In a configuration whose current
state is neither the accept nor the reject state and for whose symbol under the
head the table has no rule, the machine after `n` steps is the initial machine,
for every `n`, and the loop is still running on that machine after `n`
iterations: it never halts. -/
theorem C16_stall_forever (t : TuringMachine) (character : Char) (n : Nat)
    (hread : CurrentTapeValue t = .ok character)
    (hacc : t.Controller.CurrentState ≠ t.AcceptState)
    (hrej : t.Controller.CurrentState ≠ t.RejectState)
    (hnone : (t.RuleSets.lookup t.Controller.CurrentState).bind
      (fun val => val.lookup (String.singleton character)) = none) :
    stepN n t = .ok t ∧ runLoop n t = .running t ∧
      ∀ v t1, runLoop n t ≠ .halted v t1 := by
  have hstep : Step t = .ok t := by
    simp only [Step, hread, stall_returns_machine t character hnone]
  have hT : isTerminal t = false := by
    simp [isTerminal, StateMachine.GetCurrentState, hacc, hrej]
  have hs : stepN n t = .ok t := by
    induction n with
    | zero => rfl
    | succ k ih => simp only [stepN, hstep, ih]
  have hr : runLoop n t = .running t := by
    clear hs
    induction n with
    | zero => rfl
    | succ k ih =>
      rw [runLoop_succ, hstep]
      simp only [hT, Bool.false_eq_true, if_false, ih]
  refine ⟨hs, hr, ?_⟩
  intro v t1 hh
  rw [hr] at hh
  cases hh

/-- Witness of C16: the machine of the scenario `s1:{a:(s1,a,L)}` after its
first step, at head 1 past the input `a`, has no rule for the blank. -/
theorem C16_stall_forever_witness :
    stepN 5 { leftAtStart with cursor := 1 } = .ok { leftAtStart with cursor := 1 } ∧
      runLoop 5 { leftAtStart with cursor := 1 } = .running { leftAtStart with cursor := 1 } ∧
      ∀ v t1, runLoop 5 { leftAtStart with cursor := 1 } ≠ .halted v t1 :=
  C16_stall_forever { leftAtStart with cursor := 1 } '_' 5 rfl (by decide) (by decide) (by decide)

/-! ## Event names and directions -/

theorem InitializeController_transitions (t : TuringMachine) (states : List String)
    (start : String) :
    (InitializeController t states start).Controller.Transitions =
      derivedTransitions t.RuleSets := by
  simp [InitializeController, registerTransitions_eq, foldl_AddState, NewMachine]

/-- C17, as stated, fails: the rules `a -> bc` and `ab -> c` have different
pairs of state and next state, and `InitializeController` registers both
transitions under the one event name `abc`. -/
theorem C17_counterexample_event_names_collide :
    (initialMachine collidingRules "x" ["a", "ab", "bc", "c"] "c" "bc" "a").Controller.Transitions =
        [⟨"abc", "a", "bc"⟩, ⟨"abc", "ab", "c"⟩] ∧
      (("a", "bc") : String × String) ≠ ("ab", "c") ∧
      ("a" : String) ++ "bc" = "ab" ++ "c" := by
  decide

/-- C17, amended: the event name identifies a transition among those that
leave the same state.  Two transitions that `InitializeController` registers
with the same event name and the same source state have the same destination;
so in a machine with that controller the event the step emits for a rule found
for the current state, fired in that state, brings the controller to the rule's
next state when it is declared. -/
theorem C17_event_names_per_source (t : TuringMachine) (states : List String) (start : String) :
    (∀ r1 ∈ (InitializeController t states start).Controller.Transitions,
      ∀ r2 ∈ (InitializeController t states start).Controller.Transitions,
        r1.EventName = r2.EventName → r1.CurrentState = r2.CurrentState →
          r1.DestinationState = r2.DestinationState) ∧
    (∀ (u : TuringMachine) (sym : String) (val : List (String × Ruleset)) (rule : Ruleset),
      Configured u states →
      u.RuleSets.lookup u.Controller.CurrentState = some val →
      val.lookup sym = some rule →
      rule.NextState ∈ states →
        (u.Controller.Emit (u.Controller.CurrentState ++ rule.NextState)).CurrentState =
          rule.NextState) := by
  constructor
  · intro r1 h1 r2 h2 hname hsrc
    rw [InitializeController_transitions] at h1 h2
    have e1 := derivedTransitions_named _ r1 h1
    have e2 := derivedTransitions_named _ r2 h2
    rw [e1, e2, hsrc] at hname
    exact append_left_cancel hname
  · intro u sym val rule hcfg hval hrule hnext
    rw [Emit_rule u states sym val rule hcfg hval hrule hnext]

/-- Witness of C17: in the colliding table the event `abc` fired in the state
`a` leads to `bc`. -/
theorem C17_event_names_per_source_witness :
    ((initialMachine collidingRules "x" ["a", "ab", "bc", "c"] "c" "bc" "a").Controller.Emit
      ((initialMachine collidingRules "x" ["a", "ab", "bc", "c"] "c" "bc"
        "a").Controller.CurrentState ++ "bc")).CurrentState = "bc" :=
  (C17_event_names_per_source
    (initialMachine collidingRules "x" ["a", "ab", "bc", "c"] "c" "bc" "a")
    ["a", "ab", "bc", "c"] "a").2
    (initialMachine collidingRules "x" ["a", "ab", "bc", "c"] "c" "bc" "a") "x"
    [("x", ⟨"bc", "x", "R"⟩)] ⟨"bc", "x", "R"⟩ ⟨"a", by decide⟩ (by decide) (by decide)
    (by decide)

/-- C18, as stated, fails: with the direction string `X`, the step on the tape
moves the head from 1 to 2, a move to the right, and the step past the end of
the tape moves the head from 1 to 0, a move to the left. -/
theorem C18_counterexample_other_direction :
    (directionOnTape "X").cursor = 1 ∧
      ProcessAndMoveCursor (directionOnTape "X") 'a' =
        .ok { directionOnTape "X" with cursor := 2 } ∧
      (pastTheEnd ⟨"s1", "_", "X"⟩ scenarioStates).cursor = 1 ∧
      ProcessAndMoveCursor (pastTheEnd ⟨"s1", "_", "X"⟩ scenarioStates) '_' =
        .ok { pastTheEnd ⟨"s1", "_", "X"⟩ scenarioStates with cursor := 0 } :=
  ⟨by decide, rfl, by decide, rfl⟩

/-- C18, amended: for a direction string among L, l, R and r the two branches
agree.  The step of a machine with the head on the tape at a position above 0
decrements the head exactly when the step of a machine with the head past the
end decrements the head, the rules applied having that same direction. -/
theorem C18_direction_agrees_on_LR (d : String)
    (hd : d = "L" ∨ d = "l" ∨ d = "R" ∨ d = "r")
    (t u : TuringMachine) (c r : Char) (vt vu : List (String × Ruleset)) (rt ru : Ruleset)
    (hpos : 0 < t.cursor) (hin : t.cursor.toNat < t.Tape.length)
    (hon : ¬ t.cursor ≥ (t.InputString.utf8ByteSize : Int))
    (hvt : t.RuleSets.lookup t.Controller.CurrentState = some vt)
    (hrt : vt.lookup (String.singleton c) = some rt)
    (hsym : ToRune rt.ReplacementSymbol = .ok r)
    (hdt : rt.Direction = d)
    (hoff : u.cursor ≥ (u.InputString.utf8ByteSize : Int))
    (hvu : u.RuleSets.lookup u.Controller.CurrentState = some vu)
    (hru : vu.lookup (String.singleton '_') = some ru)
    (hdu : ru.Direction = d) :
    (∃ t1, ProcessAndMoveCursor t c = .ok t1 ∧ t1.cursor = t.cursor - 1) ↔
      (∃ u1, ProcessAndMoveCursor u '_' = .ok u1 ∧ u1.cursor = u.cursor - 1) := by
  have hw : 0 ≤ t.cursor ∧ t.cursor.toNat < t.Tape.length := ⟨by omega, hin⟩
  have hne : t.cursor ≠ 0 := by omega
  by_cases hl : d = "L" ∨ d = "l"
  · have hnr : ¬ (d = "R" ∨ d = "r") := by
      rcases hl with h | h <;> rw [h] <;> decide
    have hu : ProcessAndMoveCursor u '_' =
        .ok { u with
          cursor := u.cursor - 1
          Controller := u.Controller.Emit (u.Controller.CurrentState ++ ru.NextState) } := by
      simp only [ProcessAndMoveCursor, hvu, hru, if_pos hoff, hdu, if_neg hnr]
    have ht : ProcessAndMoveCursor t c =
        .ok { t with
          Tape := t.Tape.set t.cursor.toNat r
          cursor := t.cursor - 1
          Controller := t.Controller.Emit (t.Controller.CurrentState ++ rt.NextState) } := by
      simp only [ProcessAndMoveCursor, hvt, hrt, if_neg hon, hsym, writeTape, if_pos hw, hdt]
      simp [hl, hne]
    exact ⟨fun _ => ⟨_, hu, rfl⟩, fun _ => ⟨_, ht, rfl⟩⟩
  · have hr : d = "R" ∨ d = "r" := by
      rcases hd with h | h | h | h
      · exact absurd (Or.inl h) hl
      · exact absurd (Or.inr h) hl
      · exact Or.inl h
      · exact Or.inr h
    constructor
    · rintro ⟨t1, h1, hc1⟩
      simp only [ProcessAndMoveCursor, hvt, hrt, if_neg hon, hsym, writeTape, if_pos hw, hdt,
        Except.ok.injEq] at h1
      subst h1
      simp [hl] at hc1
      omega
    · rintro ⟨u1, h1, hc1⟩
      simp only [ProcessAndMoveCursor, hvu, hru, if_pos hoff, hdu, if_pos hr,
        StateMachine.SetState] at h1
      split at h1
      · rename_i m hm
        split at hm
        · cases hm
          cases h1
          simp only at hc1
          omega
        · cases hm
      · cases h1

/-- Witness of C18: with the direction `L` both steps decrement the head. -/
theorem C18_direction_agrees_on_LR_witness :
    (∃ t1, ProcessAndMoveCursor (directionOnTape "L") 'a' = .ok t1 ∧
        t1.cursor = (directionOnTape "L").cursor - 1) ↔
      (∃ u1, ProcessAndMoveCursor (pastTheEnd ⟨"s1", "_", "L"⟩ scenarioStates) '_' = .ok u1 ∧
        u1.cursor = (pastTheEnd ⟨"s1", "_", "L"⟩ scenarioStates).cursor - 1) :=
  C18_direction_agrees_on_LR "L" (Or.inl rfl) (directionOnTape "L")
    (pastTheEnd ⟨"s1", "_", "L"⟩ scenarioStates) 'a' 'a' [("a", ⟨"s1", "a", "L"⟩)]
    [("a", ⟨"s1", "a", "R"⟩), ("_", ⟨"s1", "_", "L"⟩)] ⟨"s1", "a", "L"⟩ ⟨"s1", "_", "L"⟩
    (by decide) (by decide) (by decide) (by decide) (by decide) rfl rfl (by decide) (by decide)
    (by decide) rfl

/-! ## The head stays on or just past the tape -/

theorem length_pos_of_ne_empty (s : String) (h : s ≠ "") : 1 ≤ s.length := by
  have hlen : s.length = s.data.length := rfl
  cases hd : s.data with
  | nil => exact absurd (String.ext hd) h
  | cons c cs => rw [hlen, hd]; simp

/-- One iteration of the loop on a non-empty ASCII input keeps the input
string, the rule table and the tape length, and keeps the head between 0 and
the tape length. -/
theorem Step_head_in_range (inputString : String)
    (rules : List (String × List (String × Ruleset)))
    (hne : inputString ≠ "") (hascii : IsASCII inputString) (t t1 : TuringMachine)
    (hstep : Step t = .ok t1)
    (hinv : t.InputString = inputString ∧ t.RuleSets = rules ∧
      t.Tape.length = inputString.length ∧ 0 ≤ t.cursor ∧ t.cursor ≤ t.Tape.length) :
    t1.InputString = inputString ∧ t1.RuleSets = rules ∧
      t1.Tape.length = inputString.length ∧ 0 ≤ t1.cursor ∧ t1.cursor ≤ t1.Tape.length := by
  obtain ⟨hin, hru, hlen, h0, h1⟩ := hinv
  have hpos := length_pos_of_ne_empty inputString hne
  have hbytes := utf8ByteSize_of_ascii inputString hascii
  unfold Step at hstep
  split at hstep
  · have hfr := ProcessAndMoveCursor_frame t t1 _ hstep
    refine ⟨hfr.1.trans hin, hfr.2.2.2.1.trans hru, ?_⟩
    rcases ProcessAndMoveCursor_shape t t1 _ hstep with
      ⟨htape, hc | ⟨hoff, hc⟩⟩ | ⟨_, hlt, _, ⟨r, hset⟩, hc | ⟨hnz, hc⟩⟩
    · rw [htape, hc]
      exact ⟨hlen, h0, h1⟩
    · rw [hin, hbytes] at hoff
      rw [htape, hc]
      refine ⟨hlen, ?_, ?_⟩ <;> omega
    · rw [hset, hc, List.length_set]
      refine ⟨hlen, ?_, ?_⟩ <;> omega
    · rw [hset, hc, List.length_set]
      refine ⟨hlen, ?_, ?_⟩ <;> omega
  · cases hstep

theorem stepN_head_in_range (inputString : String)
    (rules : List (String × List (String × Ruleset)))
    (hne : inputString ≠ "") (hascii : IsASCII inputString) (n : Nat) :
    ∀ t t1 : TuringMachine, stepN n t = .ok t1 →
      (t.InputString = inputString ∧ t.RuleSets = rules ∧
        t.Tape.length = inputString.length ∧ 0 ≤ t.cursor ∧ t.cursor ≤ t.Tape.length) →
      t1.InputString = inputString ∧ t1.RuleSets = rules ∧
        t1.Tape.length = inputString.length ∧ 0 ≤ t1.cursor ∧ t1.cursor ≤ t1.Tape.length := by
  induction n with
  | zero =>
    intro t t1 h hinv
    simp only [stepN, Except.ok.injEq] at h
    rw [← h]
    exact hinv
  | succ k ih =>
    intro t t1 h hinv
    simp only [stepN] at h
    split at h
    · cases h
    · rename_i t2 hstep
      exact ih t2 t1 h (Step_head_in_range inputString rules hne hascii t t2 hstep hinv)

/-- C19: the head stays on or just past the tape.  For a non-empty ASCII input
string and a rule table whose replacement symbols are single ASCII characters,
every machine reached from the initial machine, with the head at 0, by any
number of steps has `0 ≤ Head ≤ len(Tape)`; its read of the tape returns a
symbol, and its next step either returns or panics with `Reject state invalid`:
no step reads or writes the tape out of range. -/
theorem C19_head_in_range (rules : List (String × List (String × Ruleset)))
    (inputString : String) (states : List String) (acceptState rejectState start : String)
    (n : Nat) (t : TuringMachine)
    (hne : inputString ≠ "") (hascii : IsASCII inputString) (hsym : AsciiSymbols rules)
    (hreach :
      stepN n (initialMachine rules inputString states acceptState rejectState start) = .ok t) :
    0 ≤ t.cursor ∧ t.cursor ≤ t.Tape.length ∧
      (∃ c, CurrentTapeValue t = .ok c) ∧
      ∀ e, Step t = .error e → e = "Reject state invalid" := by
  have hinit : (initialMachine rules inputString states acceptState rejectState start).InputString
        = inputString ∧
      (initialMachine rules inputString states acceptState rejectState start).RuleSets = rules ∧
      (initialMachine rules inputString states acceptState rejectState start).Tape.length =
        inputString.length ∧
      0 ≤ (initialMachine rules inputString states acceptState rejectState start).cursor ∧
      (initialMachine rules inputString states acceptState rejectState start).cursor ≤
        (initialMachine rules inputString states acceptState rejectState start).Tape.length :=
    ⟨rfl, rfl, rfl, le_refl _, by simp [initialMachine, InitializeController]⟩
  obtain ⟨hin, hru, hlen, h0, h1⟩ :=
    stepN_head_in_range inputString rules hne hascii n _ t hreach hinit
  have hbytes := utf8ByteSize_of_ascii inputString hascii
  have hread : ∃ c, CurrentTapeValue t = .ok c := by
    unfold CurrentTapeValue
    by_cases hoff : t.cursor ≥ (t.InputString.utf8ByteSize : Int)
    · exact ⟨'_', if_pos hoff⟩
    · rw [if_neg hoff]
      rw [hin, hbytes] at hoff
      have hlt : t.cursor.toNat < t.Tape.length := by omega
      refine ⟨t.Tape[t.cursor.toNat], ?_⟩
      simp only [readTape, if_pos h0, List.getElem?_eq_getElem hlt]
  refine ⟨h0, h1, hread, ?_⟩
  intro e he
  obtain ⟨c, hc⟩ := hread
  simp only [Step, hc] at he
  unfold ProcessAndMoveCursor at he
  simp only at he
  split at he
  · rename_i val hval
    split at he
    · rename_i rule hrule
      split at he
      · split at he
        · split at he
          · cases he
          · cases he
            rfl
        · cases he
      · rename_i hon
        rw [hru] at hval
        obtain ⟨r, hr, hra⟩ := hsym _ (mem_of_lookup _ _ _ hval) _ (mem_of_lookup _ _ _ hrule)
        simp only at hr
        rw [hin, hbytes] at hon
        have hw : 0 ≤ t.cursor ∧ t.cursor.toNat < t.Tape.length := ⟨h0, by omega⟩
        simp only [hr, ToRune_singleton r hra, writeTape, if_pos hw] at he
        cases he
    · cases he
  · cases he

/-- Witness of C19: the accepting scenario after two steps. -/
theorem C19_head_in_range_witness :
    0 ≤ ({ acceptingMachine with
        cursor := 2
        Tape := "bb".data
        Controller := { acceptingMachine.Controller with CurrentState := "sAccept" } } :
        TuringMachine).cursor ∧
      ({ acceptingMachine with
        cursor := 2
        Tape := "bb".data
        Controller := { acceptingMachine.Controller with CurrentState := "sAccept" } } :
        TuringMachine).cursor ≤
        (({ acceptingMachine with
          cursor := 2
          Tape := "bb".data
          Controller := { acceptingMachine.Controller with CurrentState := "sAccept" } } :
          TuringMachine).Tape.length : Int) ∧
      (∃ c, CurrentTapeValue
        { acceptingMachine with
          cursor := 2
          Tape := "bb".data
          Controller := { acceptingMachine.Controller with CurrentState := "sAccept" } } =
          .ok c) ∧
      ∀ e, Step
        { acceptingMachine with
          cursor := 2
          Tape := "bb".data
          Controller := { acceptingMachine.Controller with CurrentState := "sAccept" } } =
          .error e → e = "Reject state invalid" :=
  C19_head_in_range acceptingRules "ab" scenarioStates "sAccept" "sReject" "s1" 2 _
    (by decide) (by decide)
    (by
      intro entry he symbolRuleSet hs
      simp only [acceptingRules, List.mem_cons, List.mem_singleton, List.not_mem_nil,
        or_false] at he
      rcases he with he | he <;> subst he <;>
        simp only [List.mem_singleton] at hs <;> subst hs <;>
        exact ⟨'b', rfl, by decide⟩)
    rfl

end TuringGo
